import Mathlib

/-!
Shallow embedding of the light-calibration spectral pipeline
(`src/spectrum_utils.py`, `src/calculator.py`, `src/govardovskii.py`,
`src/importer.py`).  Machine floats are modelled by exact rationals (ℚ)
where the code is pure arithmetic, by real numbers (ℝ) where the code
uses `exp`/`sqrt`, and by an explicit NaN-aware wrapper `FVal` in the
rate calculator, where a division by a zero sum can occur.
-/

set_option maxRecDepth 8000

namespace LightCal

/-! ### Wavelength grid (`spectrum_utils.py`, lines 8-15) -/

/-- `np.arange(start, stop, step)` for rational parameters: the values
`start + k*step` for `k < ⌈(stop - start)/step⌉`. -/
def arange (start stop step : ℚ) : List ℚ :=
  (List.range (Int.toNat ⌈(stop - start) / step⌉)).map (fun k : ℕ => start + (k : ℚ) * step)

/-- `standard_wavelengths()`: `np.arange(200, 720 + 1, 1)`, the canonical
200–720 nm grid with 1 nm step. -/
def standard_wavelengths : List ℚ := arange 200 (720 + 1) 1

/-! ### numpy-style fold min/max (`.min()` / `.max()` on a nonempty array;
the empty case, which numpy rejects, is mapped to 0) -/

def npMax {α : Type} [LinearOrder α] [Zero α] : List α → α
  | [] => 0
  | h :: t => t.foldl max h

def npMin {α : Type} [LinearOrder α] [Zero α] : List α → α
  | [] => 0
  | h :: t => t.foldl min h

/-! ### Linear interpolation (`scipy.interpolate.interp1d`, kind='linear',
bounds_error=False, fill_value=0.0), evaluated pointwise. -/

/-- Value of the linear segment through points `p` and `q` at `x`:
`y_lo + slope * (x - x_lo)` with `slope = (y_hi - y_lo)/(x_hi - x_lo)`. -/
def seg_interp (p q : ℚ × ℚ) (x : ℚ) : ℚ :=
  p.2 + (q.2 - p.2) / (q.1 - p.1) * (x - p.1)

/-- Walk the knot list: `p` is the current left knot, the list holds the
remaining knots.  Past the last knot the fill value 0 is returned. -/
def interp_go : ℚ × ℚ → List (ℚ × ℚ) → ℚ → ℚ
  | p, [], x => if x = p.1 then p.2 else 0
  | p, q :: rest, x => if x ≤ q.1 then seg_interp p q x else interp_go q rest x

/-- `interp1d(wl, vals, kind='linear', bounds_error=False, fill_value=0.0)`
applied at a single point `x`, with `ps` the list of (wavelength, value)
knots: 0 strictly left of the first knot, 0 strictly right of the last
knot, linear interpolation in between. -/
def linInterp (ps : List (ℚ × ℚ)) (x : ℚ) : ℚ :=
  match ps with
  | [] => 0
  | p :: rest => if x < p.1 then 0 else interp_go p rest x

/-! ### `resample_spectrum` (`spectrum_utils.py`, lines 18-52), with the
default grid parameters `start=200, end=720, step=1`.  The two validation
failures are the ones `interp1d` raises (the spec's
`InvalidSpectrumError`). -/

/-- The clamped interpolated values on the canonical grid
(lines 47-51 of `spectrum_utils.py`): `np.maximum(f(new_wavelengths), 0.0)`. -/
def resample_values (wavelengths values : List ℚ) : List ℚ :=
  standard_wavelengths.map (fun g => max (linInterp (wavelengths.zip values) g) 0)

/-- `resample_spectrum(wavelengths, values)` with default grid parameters.
`interp1d` raises `ValueError` when the arrays differ in length or hold
fewer than 2 points; otherwise the spectrum is interpolated onto
`np.arange(200, 721, 1)` and clamped at 0. -/
def resample_spectrum (wavelengths values : List ℚ) : Except String (List ℚ × List ℚ) :=
  if wavelengths.length ≠ values.length then
    .error ("x and y arrays must be equal in length along interpolation axis.")
  else if wavelengths.length < 2 then
    .error ("x and y arrays must have at least 2 entries")
  else
    .ok (standard_wavelengths, resample_values wavelengths values)

/-! ### NaN-aware rational arithmetic for the rate calculator.
numpy float division `0/0` yields NaN and NaN propagates through
`+`, `*`, `/` and `sum`; `FVal` records exactly that. -/

inductive FVal where
  | nan : FVal
  | val : ℚ → FVal
  deriving DecidableEq, Repr

def fadd : FVal → FVal → FVal
  | .val a, .val b => .val (a + b)
  | _, _ => .nan

def fmul : FVal → FVal → FVal
  | .val a, .val b => .val (a * b)
  | _, _ => .nan

def fdiv : FVal → FVal → FVal
  | .val a, .val b => if b = 0 then .nan else .val (a / b)
  | _, _ => .nan

def fsum (l : List FVal) : FVal := l.foldr fadd (.val 0)

/-! ### Physical constants and the rate calculator
(`calculator.py`, lines 8-9 and 12-66). -/

/-- Planck's constant as fixed in the source: `H = 6.6e-34`. -/
def H : ℚ := 6.6e-34

/-- Speed of light as fixed in the source: `C = 3e8`. -/
def C : ℚ := 3e8

/-- `compute_photoisomerization_rate` (`calculator.py`, lines 12-66).
Raises (`ValueError`) iff the two wavelength arrays are not element-wise
equal (`np.array_equal`); otherwise normalizes the stimulus by its sum
(with no all-zero guard: `0/0` is NaN), converts to photon flux per bin
and integrates against the receptor sensitivity. -/
def compute_photoisomerization_rate (power_nw : ℚ) (stimulus_wavelengths : List ℚ)
    (stimulus_spectrum : List ℚ) (receptor_wavelengths : List ℚ)
    (receptor_spectrum : List ℚ) (area_um2 : ℚ) (collecting_area_um2 : ℚ) :
    Except String FVal :=
  if stimulus_wavelengths ≠ receptor_wavelengths then
    .error ("Stimulus and receptor spectra must be on the same wavelength grid.")
  else
    let wavelengths := stimulus_wavelengths
    let stim_norm : List FVal :=
      stimulus_spectrum.map (fun v => fdiv (.val v) (.val stimulus_spectrum.sum))
    let power_w : ℚ := power_nw * 1e-9
    let spectral_power : List FVal := stim_norm.map (fun v => fmul v (.val power_w))
    let wavelengths_m : List ℚ := wavelengths.map (fun w => w * 1e-9)
    let photon_flux : List FVal :=
      List.zipWith (fun p w => fdiv (fmul p (.val w)) (.val (H * C))) spectral_power wavelengths_m
    let photon_density : List FVal := photon_flux.map (fun v => fdiv v (.val area_um2))
    let rate : FVal :=
      fmul (fsum (List.zipWith fmul photon_density (receptor_spectrum.map FVal.val)))
        (.val collecting_area_um2)
    .ok rate

/-- The delta-like spectrum of the end-to-end scenario: 1.0 at 500 nm on
the canonical grid, 0 elsewhere. -/
def delta500 : List ℚ := standard_wavelengths.map (fun w => if w = 500 then 1 else 0)

/-! ### Govardovskii nomogram (`govardovskii.py`), over ℝ since the
template uses `exp`. -/

/-- The canonical grid as real numbers (the nomogram's default
`standard_wavelengths()`). -/
noncomputable def standard_wavelengths_r : List ℝ :=
  standard_wavelengths.map (fun q : ℚ => (q : ℝ))

/-- `_alpha_band(wavelengths, lambda_max)` at a single wavelength
(`govardovskii.py`, lines 13-47): the main absorbance peak, with the
standard parameter set when `lambda_max > 400` and the UV parameter set
otherwise. -/
noncomputable def alpha_band (wavelength lambda_max : ℝ) : ℝ :=
  let x := lambda_max / wavelength
  if 400 < lambda_max then
    1.0 / (Real.exp (69.7 * ((0.8795 + 0.0459 * Real.exp (-((lambda_max - 300) ^ 2) / 11940)) - x))
      + Real.exp (28.0 * (0.922 - x))
      + Real.exp ((-14.9) * (1.104 - x))
      + 0.674)
  else
    1.0 / (Real.exp (62.7 * (0.880 - x))
      + Real.exp (16.5 * (0.860 - x))
      + Real.exp ((-10.0) * (1.100 - x))
      + 0.680)

/-- `_beta_band(wavelengths, lambda_max)` at a single wavelength
(`govardovskii.py`, lines 50-65): the cis peak, zero for
`lambda_max ≤ 400`. -/
noncomputable def beta_band (wavelength lambda_max : ℝ) : ℝ :=
  if lambda_max ≤ 400 then 0
  else
    let lambda_max_beta := 189.0 + 0.315 * lambda_max
    let b_beta := -40.5 + 0.195 * lambda_max
    0.26 * Real.exp (-(((wavelength - lambda_max_beta) / b_beta) ^ 2))

/-- The unnormalized sensitivity `alpha + beta` evaluated on a grid
(`govardovskii.py`, lines 93-96). -/
noncomputable def gov_sensitivity_raw (lambda_max : ℝ) (wavelengths : List ℝ) : List ℝ :=
  wavelengths.map (fun w => alpha_band w lambda_max + beta_band w lambda_max)

/-- Peak normalization (`govardovskii.py`, lines 98-101): divide by the
maximum, skipped when the maximum is not positive. -/
noncomputable def gov_normalize (sensitivity : List ℝ) : List ℝ :=
  let peak := npMax sensitivity
  if 0 < peak then sensitivity.map (fun s => s / peak) else sensitivity

/-- `govardovskii_nomogram(lambda_max, wavelengths=None)`
(`govardovskii.py`, lines 68-103): validates `200 ≤ lambda_max ≤ 720`,
evaluates the template on the grid and peak-normalizes. -/
noncomputable def govardovskii_nomogram (lambda_max : ℝ) (wavelengths : Option (List ℝ)) :
    Except String (List ℝ × List ℝ) :=
  if 200 ≤ lambda_max ∧ lambda_max ≤ 720 then
    let ws := wavelengths.getD standard_wavelengths_r
    .ok (ws, gov_normalize (gov_sensitivity_raw lambda_max ws))
  else
    .error ("lambda_max must be between 200 and 720 nm")

/-! ### Importer noise-floor step (`importer.py`, lines 74-83), over ℝ
since `np.std` takes a square root. -/

/-- `np.mean` of a list (`sum / len`; numpy's NaN on an empty array is
mapped to Lean's `0/0 = 0`). -/
noncomputable def npMean (l : List ℝ) : ℝ := l.sum / l.length

/-- `np.std` of a list: the population standard deviation
`sqrt(mean((x - mean)²))`. -/
noncomputable def npStd (l : List ℝ) : ℝ :=
  Real.sqrt (npMean (l.map (fun x => (x - npMean l) ^ 2)))

/-- The baseline-correction and small-value-suppression step of
`import_stimulus_spectrum` (`importer.py`, lines 74-83): sort ascending,
take the lowest `max(int(0.25·n), 10)` values as the noise sample,
subtract `mean + 3·std` of that sample, clamp at 0, then zero all values
below 1% of the new peak when that peak is positive. -/
noncomputable def importer_noise_floor (values : List ℝ) : List ℝ :=
  let sorted_vals := values.insertionSort (· ≤ ·)
  let n_noise := max ⌊(0.25 : ℝ) * (values.length : ℝ)⌋₊ 10
  let noise_samples := sorted_vals.take n_noise
  let baseline := npMean noise_samples + 3 * npStd noise_samples
  let clamped := values.map (fun v => max (v - baseline) 0)
  let peak := npMax clamped
  if 0 < peak then clamped.map (fun v => if v < 0.01 * peak then 0 else v) else clamped

/-! ### Spec-side definitions, written from the claim texts, for the
refinement claims. -/

/-- Modelled from the claim text for the noise-floor correction: the
noise sample is the lowest 25% of the ascending-sorted values but never
fewer than 10 samples; `baseline = mean(noise) + 3·stdev(noise)` is
subtracted from every value with negatives clamped to 0; afterwards
every value strictly below 1% of the new peak is set to 0, skipped when
the new peak is 0. -/
noncomputable def noise_floor_spec (values : List ℝ) : List ℝ :=
  let sorted := values.insertionSort (· ≤ ·)
  let noise := sorted.take (max (values.length / 4) 10)
  let baseline := npMean noise + 3 * npStd noise
  let subtracted := values.map (fun v => max (v - baseline) 0)
  let peak := npMax subtracted
  if peak = 0 then subtracted
  else subtracted.map (fun v => if v < peak / 100 then 0 else v)

/-- The alpha-band parameter set of the claim's table. -/
structure AlphaParams where
  A : ℝ
  a : ℝ
  B : ℝ
  b : ℝ
  c1 : ℝ
  c2 : ℝ
  D : ℝ

/-- The claim's two-regime parameter table, selected by
`lambda_max > 400`. -/
noncomputable def alphaParamsFor (lambda_max : ℝ) : AlphaParams :=
  if 400 < lambda_max then
    ⟨69.7, 0.8795 + 0.0459 * Real.exp (-(lambda_max - 300) ^ 2 / 11940),
      28.0, 0.922, -14.9, 1.104, 0.674⟩
  else
    ⟨62.7, 0.880, 16.5, 0.860, -10.0, 1.100, 0.680⟩

/-- The claim's alpha band:
`S_alpha(w) = 1/(exp(A(a−x)) + exp(B(b−x)) + exp(C(c−x)) + D)` with
`x = lambda_max/w` and the parameters from the table. -/
noncomputable def S_alpha_spec (lambda_max w : ℝ) : ℝ :=
  let p := alphaParamsFor lambda_max
  let x := lambda_max / w
  1 / (Real.exp (p.A * (p.a - x)) + Real.exp (p.B * (p.b - x))
    + Real.exp (p.c1 * (p.c2 - x)) + p.D)

/-- The claim's beta band:
`S_beta(w) = 0.26·exp(−((w − (189.0+0.315·λmax))/(−40.5+0.195·λmax))²)`
for `lambda_max > 400`, and 0 otherwise. -/
noncomputable def S_beta_spec (lambda_max w : ℝ) : ℝ :=
  if 400 < lambda_max then
    0.26 * Real.exp (-((w - (189.0 + 0.315 * lambda_max)) / (-40.5 + 0.195 * lambda_max)) ^ 2)
  else 0

/-! ### Helper lemmas: fold-style min/max -/

theorem le_foldl_max {α : Type} [LinearOrder α] (l : List α) (a : α) :
    a ≤ l.foldl max a := by
  induction l generalizing a with
  | nil => exact le_refl a
  | cons h t ih => exact le_trans (le_max_left a h) (ih (max a h))

theorem mem_le_foldl_max {α : Type} [LinearOrder α] {l : List α} {x : α} (a : α)
    (hx : x ∈ l) : x ≤ l.foldl max a := by
  induction l generalizing a with
  | nil => cases hx
  | cons h t ih =>
    rcases List.mem_cons.mp hx with rfl | hx'
    · exact le_trans (le_max_right a x) (le_foldl_max t (max a x))
    · exact ih (max a h) hx'

theorem le_npMax_of_mem {α : Type} [LinearOrder α] [Zero α] {l : List α} {x : α}
    (hx : x ∈ l) : x ≤ npMax l := by
  cases l with
  | nil => cases hx
  | cons h t =>
    rcases List.mem_cons.mp hx with rfl | hx'
    · exact le_foldl_max t x
    · exact mem_le_foldl_max h hx'

theorem foldl_min_le {α : Type} [LinearOrder α] (l : List α) (a : α) :
    l.foldl min a ≤ a := by
  induction l generalizing a with
  | nil => exact le_refl a
  | cons h t ih => exact le_trans (ih (min a h)) (min_le_left a h)

theorem npMin_le_head {α : Type} [LinearOrder α] [Zero α] (h : α) (t : List α) :
    npMin (h :: t) ≤ h := foldl_min_le t h

theorem npMax_pos_of_forall_pos {α : Type} [LinearOrder α] [Zero α] {l : List α}
    (hne : l ≠ []) (hpos : ∀ x ∈ l, 0 < x) : 0 < npMax l := by
  cases l with
  | nil => exact absurd rfl hne
  | cons h t =>
    exact lt_of_lt_of_le (hpos h (List.mem_cons_self h t)) (le_npMax_of_mem (List.mem_cons_self h t))

theorem npMax_nonneg_of_forall_nonneg {α : Type} [LinearOrder α] [Zero α] {l : List α}
    (h0 : ∀ x ∈ l, 0 ≤ x) : 0 ≤ npMax l := by
  cases l with
  | nil => exact le_refl 0
  | cons h t => exact le_trans (h0 h (List.mem_cons_self h t)) (le_npMax_of_mem (List.mem_cons_self h t))

/-- The fold-maximum commutes with division by a positive constant. -/
theorem foldl_max_div {α : Type} [LinearOrderedField α] (l : List α) (a c : α)
    (hc : 0 < c) : (l.map (fun x => x / c)).foldl max (a / c) = l.foldl max a / c := by
  induction l generalizing a with
  | nil => rfl
  | cons h t ih =>
    simp only [List.map_cons, List.foldl_cons]
    rw [max_div_div_right hc.le, ih]

theorem npMax_map_div {α : Type} [LinearOrderedField α] {l : List α} {c : α}
    (hc : 0 < c) : npMax (l.map (fun x => x / c)) = npMax l / c := by
  cases l with
  | nil => simp [npMax]
  | cons h t => simpa [npMax] using foldl_max_div t h c hc

/-! ### Helper lemmas: the canonical grid -/

theorem standard_wavelengths_eq_map :
    standard_wavelengths = (List.range 521).map (fun k : ℕ => (200 : ℚ) + (k : ℚ) * 1) := by
  have h1 : ((720 : ℚ) + 1 - 200) / 1 = ((521 : ℕ) : ℚ) := by norm_num
  have : Int.toNat ⌈((720 : ℚ) + 1 - 200) / 1⌉ = 521 := by
    rw [h1, Int.ceil_natCast]; rfl
  rw [standard_wavelengths, arange, this]

theorem standard_wavelengths_pairwise : standard_wavelengths.Pairwise (· < ·) := by
  rw [standard_wavelengths_eq_map, List.pairwise_map]
  refine (List.pairwise_lt_range 521).imp ?_
  intro i j hij
  have h2 : (i : ℚ) < (j : ℚ) := by exact_mod_cast hij
  linarith

theorem standard_wavelengths_nodup : standard_wavelengths.Nodup :=
  standard_wavelengths_pairwise.imp ne_of_lt

theorem standard_wavelengths_length : standard_wavelengths.length = 521 := by
  rw [standard_wavelengths_eq_map, List.length_map, List.length_range]

theorem mem_standard_wavelengths_500 : (500 : ℚ) ∈ standard_wavelengths := by
  rw [standard_wavelengths_eq_map, List.mem_map]
  refine ⟨300, List.mem_range.mpr (by norm_num), ?_⟩
  push_cast
  norm_num

/-! ### Helper lemmas: FVal arithmetic -/

theorem fmul_val (a b : ℚ) : fmul (.val a) (.val b) = .val (a * b) := rfl

theorem fdiv_val {b : ℚ} (a : ℚ) (hb : b ≠ 0) :
    fdiv (.val a) (.val b) = .val (a / b) := by
  simp [fdiv, hb]

theorem fsum_map_val (l : List ℚ) : fsum (l.map FVal.val) = .val l.sum := by
  induction l with
  | nil => rfl
  | cons h t ih => simp [fsum, List.foldr_cons, List.sum_cons] at ih ⊢; rw [ih]; rfl

/-- Summing a delta-like map counts the occurrences of the special point. -/
theorem sum_map_ite (g : List ℚ) (c r : ℚ) :
    (g.map (fun w => if w = c then r else 0)).sum = (g.count c : ℚ) * r := by
  induction g with
  | nil => simp
  | cons h t ih =>
    simp only [List.map_cons, List.sum_cons, ih, List.count_cons]
    by_cases hc : h = c
    · subst hc; simp [add_mul, add_comm]
    · have : (c == h) = false := by
        simp [beq_iff_eq]
        exact fun hch => hc hch.symm
      simp [hc, this]

/-! ### Helper lemmas: linear interpolation -/

/-- Beyond every remaining knot the interpolator returns the fill value 0. -/
theorem interp_go_eq_zero (ps : List (ℚ × ℚ)) (p : ℚ × ℚ) (x : ℚ)
    (hps : ∀ r ∈ ps, r.1 < x) (hp : p.1 < x) : interp_go p ps x = 0 := by
  induction ps generalizing p with
  | nil => simp [interp_go, ne_of_gt hp]
  | cons q rest ih =>
    have hq : q.1 < x := hps q (List.mem_cons_self q rest)
    rw [interp_go, if_neg (not_le.mpr hq)]
    exact ih q (fun r hr => hps r (List.mem_cons_of_mem q hr)) hq

/-- At its own left knot a segment evaluates to the knot value. -/
theorem seg_interp_left (p q : ℚ × ℚ) : seg_interp p q p.1 = p.2 := by
  simp [seg_interp]

/-- At the current knot's own abscissa the interpolator returns the knot
value, provided the remaining knots lie strictly to the right. -/
theorem interp_go_self (ps : List (ℚ × ℚ)) (p : ℚ × ℚ)
    (h : ∀ r ∈ ps, p.1 < r.1) : interp_go p ps p.1 = p.2 := by
  cases ps with
  | nil => simp [interp_go]
  | cons q rest =>
    rw [interp_go, if_pos (le_of_lt (h q (List.mem_cons_self q rest)))]
    exact seg_interp_left p q

/-- A later knot evaluates to its own value. -/
theorem interp_go_knot (ps : List (ℚ × ℚ)) (p t : ℚ × ℚ)
    (hsorted : (p :: ps).Pairwise (fun a b => a.1 < b.1)) (ht : t ∈ ps) :
    interp_go p ps t.1 = t.2 := by
  induction ps generalizing p with
  | nil => cases ht
  | cons q rest ih =>
    have hpq : p.1 < q.1 := (List.pairwise_cons.mp hsorted).1 q (List.mem_cons_self q rest)
    have hq := List.pairwise_cons.mp (List.pairwise_cons.mp hsorted).2
    rcases List.mem_cons.mp ht with rfl | ht'
    · rw [interp_go, if_pos (le_refl t.1), seg_interp,
        div_mul_cancel₀ _ (ne_of_gt (sub_pos.mpr hpq))]
      ring
    · have hqt : q.1 < t.1 := hq.1 t ht'
      rw [interp_go, if_neg (not_le.mpr hqt)]
      exact ih q (List.pairwise_cons.mp hsorted).2 ht'

/-- Interpolation at a knot of a strictly increasing knot list returns the
knot's value. -/
theorem linInterp_knot (ps : List (ℚ × ℚ))
    (hsorted : ps.Pairwise (fun a b => a.1 < b.1)) (t : ℚ × ℚ) (ht : t ∈ ps) :
    linInterp ps t.1 = t.2 := by
  cases ps with
  | nil => cases ht
  | cons p rest =>
    rcases List.mem_cons.mp ht with rfl | ht'
    · rw [linInterp, if_neg (lt_irrefl t.1)]
      exact interp_go_self rest t (fun r hr => (List.pairwise_cons.mp hsorted).1 r hr)
    · have hpt : p.1 < t.1 := (List.pairwise_cons.mp hsorted).1 t ht'
      rw [linInterp, if_neg (not_lt.mpr (le_of_lt hpt))]
      exact interp_go_knot rest p t hsorted ht'

/-! ### C3 and C8: the resampler -/

/-- **C3**: for a valid source spectrum the resampler succeeds, every
returned value is non-negative (the clamp), and every grid point strictly
outside `[min(source), max(source)]` maps to exactly 0. -/
theorem C3_resample_no_extrapolation (wl vals : List ℚ)
    (hmono : wl.Chain' (· < ·)) (hlen2 : 2 ≤ wl.length)
    (hlen : wl.length = vals.length) :
    resample_spectrum wl vals = .ok (standard_wavelengths, resample_values wl vals) ∧
    (resample_values wl vals).Forall (fun v => 0 ≤ v) ∧
    (standard_wavelengths.zip (resample_values wl vals)).Forall
      (fun p => p.1 < npMin wl ∨ npMax wl < p.1 → p.2 = 0) := by
  refine ⟨?_, ?_, ?_⟩
  · rw [resample_spectrum, if_neg (by simp [hlen]), if_neg (by omega)]
  · rw [resample_values, List.forall_iff_forall_mem]
    intro v hv
    rcases List.mem_map.mp hv with ⟨g, _, rfl⟩
    exact le_max_right _ 0
  · rw [resample_values]
    have hzip : standard_wavelengths.zip
        (standard_wavelengths.map (fun g => max (linInterp (wl.zip vals) g) 0)) =
        standard_wavelengths.map (fun g => (g, max (linInterp (wl.zip vals) g) 0)) := by
      simpa using List.zip_map' id (fun g => max (linInterp (wl.zip vals) g) 0)
        standard_wavelengths
    rw [hzip, List.forall_iff_forall_mem]
    intro p hp
    rcases List.mem_map.mp hp with ⟨g, _, rfl⟩
    intro hout
    have hout' : g < npMin wl ∨ npMax wl < g := hout
    show max (linInterp (wl.zip vals) g) 0 = 0
    have hzero : linInterp (wl.zip vals) g = 0 := by
      cases wl with
      | nil => simp at hlen2
      | cons w0 wrest =>
        cases vals with
        | nil => simp at hlen
        | cons v0 vrest =>
          rcases hout' with hlt | hgt
          · rw [List.zip_cons_cons, linInterp,
              if_pos (lt_of_lt_of_le hlt (npMin_le_head w0 wrest))]
          · rw [List.zip_cons_cons, linInterp]
            have hall : ∀ r ∈ (w0, v0) :: wrest.zip vrest, r.1 < g := by
              intro r hr
              have hr1 : r.1 ∈ w0 :: wrest := by
                rcases List.mem_cons.mp hr with rfl | hr'
                · exact List.mem_cons_self w0 wrest
                · exact List.mem_cons_of_mem w0 (List.of_mem_zip hr').1
              calc r.1 ≤ npMax (w0 :: wrest) := le_npMax_of_mem hr1
                _ < g := hgt
            have hw0 : w0 < g := hall (w0, v0) (List.mem_cons_self _ _)
            rw [if_neg (not_lt.mpr (le_of_lt hw0))]
            exact interp_go_eq_zero (wrest.zip vrest) (w0, v0) g
              (fun r hr => hall r (List.mem_cons_of_mem _ hr)) hw0
    rw [hzero]
    simp

/-- Closed instance of C3 at a concrete valid source. -/
theorem C3_resample_no_extrapolation_witness :
    List.Chain' (· < ·) ([400, 500] : List ℚ) ∧ 2 ≤ ([400, 500] : List ℚ).length ∧
    ([400, 500] : List ℚ).length = ([1, 2] : List ℚ).length ∧
    (resample_spectrum [400, 500] [1, 2] =
        .ok (standard_wavelengths, resample_values [400, 500] [1, 2]) ∧
      (resample_values [400, 500] [1, 2]).Forall (fun v => 0 ≤ v) ∧
      (standard_wavelengths.zip (resample_values [400, 500] [1, 2])).Forall
        (fun p => p.1 < npMin [400, 500] ∨ npMax [400, 500] < p.1 → p.2 = 0)) :=
  ⟨by norm_num [List.chain'_cons, List.chain'_singleton], by decide, by decide,
    C3_resample_no_extrapolation [400, 500] [1, 2]
      (by norm_num [List.chain'_cons, List.chain'_singleton]) (by decide) (by decide)⟩

/-- **C8**: resampling data already on the canonical grid (with
non-negative values) returns the grid and the values unchanged, and the
output grid always has exactly 521 points spanning 200–720 inclusive. -/
theorem mem_standard_wavelengths_200 : (200 : ℚ) ∈ standard_wavelengths := by
  rw [standard_wavelengths_eq_map, List.mem_map]
  refine ⟨0, List.mem_range.mpr (by norm_num), ?_⟩
  push_cast
  norm_num

theorem mem_standard_wavelengths_720 : (720 : ℚ) ∈ standard_wavelengths := by
  rw [standard_wavelengths_eq_map, List.mem_map]
  refine ⟨520, List.mem_range.mpr (by norm_num), ?_⟩
  push_cast
  norm_num

theorem standard_wavelengths_bounds :
    standard_wavelengths.Forall (fun g => 200 ≤ g ∧ g ≤ 720) := by
  rw [List.forall_iff_forall_mem]
  intro g hg
  rw [standard_wavelengths_eq_map, List.mem_map] at hg
  rcases hg with ⟨k, hk, rfl⟩
  have hk2 : k ≤ 520 := by
    have := List.mem_range.mp hk
    omega
  have hk' : (k : ℚ) ≤ 520 := by exact_mod_cast hk2
  have hk0 : (0 : ℚ) ≤ (k : ℚ) := by positivity
  exact ⟨by linarith, by linarith⟩

theorem C8_resample_identity (vals : List ℚ) (hlen : vals.length = 521)
    (hpos : vals.Forall (fun v => 0 ≤ v)) :
    resample_spectrum standard_wavelengths vals = .ok (standard_wavelengths, vals) ∧
    standard_wavelengths.length = 521 ∧
    (200 : ℚ) ∈ standard_wavelengths ∧ (720 : ℚ) ∈ standard_wavelengths ∧
    standard_wavelengths.Forall (fun g => 200 ≤ g ∧ g ≤ 720) := by
  have hlen' : standard_wavelengths.length = vals.length := by
    rw [standard_wavelengths_length, hlen]
  have hid : resample_values standard_wavelengths vals = vals := by
    rw [resample_values]
    have hfst : (standard_wavelengths.zip vals).map Prod.fst = standard_wavelengths :=
      List.map_fst_zip _ _ (le_of_eq hlen')
    have hsorted : (standard_wavelengths.zip vals).Pairwise (fun a b => a.1 < b.1) := by
      have h2 := standard_wavelengths_pairwise
      rw [← hfst, List.pairwise_map] at h2
      exact h2
    set f : ℚ → ℚ := fun g => max (linInterp (standard_wavelengths.zip vals) g) 0 with hf
    conv_lhs => rw [← hfst]
    rw [List.map_map]
    have hpt : ∀ p ∈ standard_wavelengths.zip vals, (f ∘ Prod.fst) p = Prod.snd p := by
      intro p hp
      have hk : linInterp (standard_wavelengths.zip vals) p.1 = p.2 :=
        linInterp_knot _ hsorted p hp
      have hnn : 0 ≤ p.2 := by
        have hmem : p.2 ∈ vals := (List.of_mem_zip hp).2
        exact (List.forall_iff_forall_mem.mp hpos) p.2 hmem
      simp [hf, Function.comp, hk, max_eq_left hnn]
    rw [List.map_congr_left hpt]
    exact List.map_snd_zip _ _ (ge_of_eq hlen')
  refine ⟨?_, standard_wavelengths_length, mem_standard_wavelengths_200,
    mem_standard_wavelengths_720, standard_wavelengths_bounds⟩
  rw [resample_spectrum, if_neg (by simp [hlen']), if_neg (by omega), hid]

/-- Closed instance of C8 on the all-ones spectrum. -/
theorem C8_resample_identity_witness :
    (List.replicate 521 (1 : ℚ)).length = 521 ∧
    (List.replicate 521 (1 : ℚ)).Forall (fun v => 0 ≤ v) ∧
    (resample_spectrum standard_wavelengths (List.replicate 521 (1 : ℚ)) =
        .ok (standard_wavelengths, List.replicate 521 (1 : ℚ)) ∧
      standard_wavelengths.length = 521 ∧
      (200 : ℚ) ∈ standard_wavelengths ∧ (720 : ℚ) ∈ standard_wavelengths ∧
      standard_wavelengths.Forall (fun g => 200 ≤ g ∧ g ≤ 720)) := by
  have h1 : (List.replicate 521 (1 : ℚ)).length = 521 := List.length_replicate 521 1
  have h2 : (List.replicate 521 (1 : ℚ)).Forall (fun v => 0 ≤ v) := by
    rw [List.forall_iff_forall_mem]
    intro v hv
    rw [List.eq_of_mem_replicate hv]
    norm_num
  exact ⟨h1, h2, C8_resample_identity _ h1 h2⟩

/-! ### C9: resampler validation failures -/

/-- **C9**: `resample_spectrum` fails whenever the source has fewer than 2
points or the wavelength and value arrays have different lengths. -/
theorem C9_resample_invalid (wl vals : List ℚ)
    (h : wl.length < 2 ∨ wl.length ≠ vals.length) :
    ∃ e, resample_spectrum wl vals = .error e := by
  by_cases hmm : wl.length = vals.length
  · rcases h with h2 | hne
    · exact ⟨_, by rw [resample_spectrum, if_neg (by simp [hmm]), if_pos h2]⟩
    · exact absurd hmm hne
  · exact ⟨_, by rw [resample_spectrum, if_pos hmm]⟩

/-- Closed instance of C9 on a one-point source. -/
theorem C9_resample_invalid_witness :
    (([1] : List ℚ).length < 2 ∨ ([1] : List ℚ).length ≠ ([1] : List ℚ).length) ∧
    ∃ e, resample_spectrum [1] [1] = .error e :=
  ⟨Or.inl (by decide), C9_resample_invalid [1] [1] (Or.inl (by decide))⟩

/-! ### C5: grid-mismatch error of the rate calculator -/

/-- **C5**: `compute_photoisomerization_rate` fails with the grid-mismatch
error exactly when the stimulus and receptor wavelength arrays are not
element-wise equal, and succeeds otherwise (it never re-grids: the
success branch uses the given arrays unchanged). -/
theorem C5_grid_mismatch (power_nw : ℚ) (stim_wl stim_sp rec_wl rec_sp : List ℚ)
    (area_um2 collecting_area_um2 : ℚ) :
    (compute_photoisomerization_rate power_nw stim_wl stim_sp rec_wl rec_sp
        area_um2 collecting_area_um2 =
      .error ("Stimulus and receptor spectra must be on the same wavelength grid."))
      ↔ stim_wl ≠ rec_wl := by
  by_cases h : stim_wl = rec_wl
  · simp [compute_photoisomerization_rate, h]
  · simp [compute_photoisomerization_rate, h]

/-! ### C1: the end-to-end delta scenario -/

theorem delta500_sum : delta500.sum = 1 := by
  rw [delta500, sum_map_ite,
    List.count_eq_one_of_mem standard_wavelengths_nodup mem_standard_wavelengths_500]
  norm_num

/-- **C1**: with the delta-like stimulus and receptor at 500 nm,
`power_nw = area_um2 = collecting_area_um2 = 1`, the computed rate is
exactly `(1e-9 × 500e-9) / (6.6e-34 × 3e8)`. -/
theorem C1_delta_rate :
    compute_photoisomerization_rate 1 standard_wavelengths delta500 standard_wavelengths
      delta500 1 1 = .ok (.val ((1e-9 * 500e-9) / (6.6e-34 * 3e8))) := by
  rw [compute_photoisomerization_rate,
    if_neg (by simp : ¬standard_wavelengths ≠ standard_wavelengths)]
  simp only [Except.ok.injEq]
  rw [delta500_sum]
  simp only [delta500, List.map_map, List.zipWith_map, List.zipWith_same]
  have key : ∀ F : ℚ → FVal,
      (∀ a ∈ standard_wavelengths,
        F a = FVal.val (if a = 500 then (1e-9 * 500e-9 / (H * C) : ℚ) else 0)) →
      fmul (fsum (standard_wavelengths.map F)) (FVal.val 1) =
        FVal.val (1e-9 * 500e-9 / (6.6e-34 * 3e8)) := by
    intro F hF
    rw [List.map_congr_left hF]
    have hcomp : (fun a : ℚ =>
        FVal.val (if a = 500 then (1e-9 * 500e-9 / (H * C) : ℚ) else 0)) =
        FVal.val ∘ (fun a : ℚ => if a = 500 then (1e-9 * 500e-9 / (H * C) : ℚ) else 0) :=
      rfl
    rw [hcomp, ← List.map_map, fsum_map_val, sum_map_ite,
      List.count_eq_one_of_mem standard_wavelengths_nodup mem_standard_wavelengths_500,
      fmul_val]
    congr 1
    push_cast
    norm_num [H, C]
  refine key _ ?_
  intro a ha
  simp only [Function.comp_apply]
  by_cases h : a = 500
  · subst h
    norm_num [fdiv, fmul, H, C]
  · simp only [if_neg h]
    norm_num [fdiv, fmul, H, C]

/-! ### C6: the all-zero stimulus is NOT guarded in
`compute_photoisomerization_rate` -/

/-- **C6** (failing input): with an all-zero stimulus the calculator
divides by the zero sum — `stim_norm = 0/0` — and the rate propagates as
NaN instead of a well-defined non-negative number; the sum-normalization
step is not skipped (`calculator.py` line 47 has no guard, unlike
`compute_from_names` line 103 and `importer.py` line 90). -/
theorem C6_all_zero_stimulus_nan :
    compute_photoisomerization_rate 1 [200, 201] [0, 0] [200, 201] [1, 1] 1 1 =
      .ok FVal.nan := by
  with_unfolding_all rfl

/-! ### C2: the nomogram template formula -/

/-- **C2**: for every `lambda_max` in `[200, 720]` and every wavelength,
the unnormalized sensitivity `alpha + beta` equals the claim's closed-form
`S_alpha + S_beta` with the two-regime parameter table. -/
theorem C2_template_formula (lambda_max w : ℝ) (h1 : 200 ≤ lambda_max)
    (h2 : lambda_max ≤ 720) :
    alpha_band w lambda_max + beta_band w lambda_max =
      S_alpha_spec lambda_max w + S_beta_spec lambda_max w := by
  by_cases h : 400 < lambda_max
  · simp only [alpha_band, beta_band, S_alpha_spec, S_beta_spec, alphaParamsFor,
      if_pos h, if_neg (not_le.mpr h)]
    norm_num
  · simp only [alpha_band, beta_band, S_alpha_spec, S_beta_spec, alphaParamsFor,
      if_neg h, if_pos (not_lt.mp h)]
    norm_num

/-- Closed instance of C2 at `lambda_max = 500`, `w = 500`. -/
theorem C2_template_formula_witness :
    (200 : ℝ) ≤ 500 ∧ (500 : ℝ) ≤ 720 ∧
    alpha_band 500 500 + beta_band 500 500 = S_alpha_spec 500 500 + S_beta_spec 500 500 :=
  ⟨by norm_num, by norm_num, C2_template_formula 500 500 (by norm_num) (by norm_num)⟩

/-! ### C4 and C10: nomogram normalization and positivity -/

theorem alpha_band_pos (w lambda_max : ℝ) : 0 < alpha_band w lambda_max := by
  rw [alpha_band]
  split
  · positivity
  · positivity

theorem beta_band_nonneg (w lambda_max : ℝ) : 0 ≤ beta_band w lambda_max := by
  rw [beta_band]
  split
  · exact le_refl 0
  · positivity

theorem standard_wavelengths_r_ne_nil : standard_wavelengths_r ≠ [] := by
  rw [standard_wavelengths_r]
  intro hc
  have := congrArg List.length hc
  rw [List.length_map, standard_wavelengths_length] at this
  simp at this

theorem gov_sensitivity_raw_pos (lambda_max : ℝ) :
    ∀ s ∈ gov_sensitivity_raw lambda_max standard_wavelengths_r, 0 < s := by
  intro s hs
  rw [gov_sensitivity_raw] at hs
  rcases List.mem_map.mp hs with ⟨w, _, rfl⟩
  exact add_pos_of_pos_of_nonneg (alpha_band_pos w lambda_max) (beta_band_nonneg w lambda_max)

theorem gov_raw_peak_pos (lambda_max : ℝ) :
    0 < npMax (gov_sensitivity_raw lambda_max standard_wavelengths_r) := by
  refine npMax_pos_of_forall_pos ?_ (gov_sensitivity_raw_pos lambda_max)
  rw [gov_sensitivity_raw]
  simp only [ne_eq, List.map_eq_nil_iff]
  exact standard_wavelengths_r_ne_nil

/-- **C4**: for every `lambda_max` in `[200, 720]` the nomogram succeeds,
the unnormalized peak is strictly positive (so the normalization is not
skipped — it is skipped only when the peak is `≤ 0`), and the maximum of
the returned sensitivity equals exactly 1. -/
theorem C4_nomogram_peak_one (lambda_max : ℝ) (h1 : 200 ≤ lambda_max)
    (h2 : lambda_max ≤ 720) :
    govardovskii_nomogram lambda_max none =
      .ok (standard_wavelengths_r,
        gov_normalize (gov_sensitivity_raw lambda_max standard_wavelengths_r)) ∧
    0 < npMax (gov_sensitivity_raw lambda_max standard_wavelengths_r) ∧
    npMax (gov_normalize (gov_sensitivity_raw lambda_max standard_wavelengths_r)) = 1 := by
  refine ⟨?_, gov_raw_peak_pos lambda_max, ?_⟩
  · rw [govardovskii_nomogram, if_pos ⟨h1, h2⟩]
    rfl
  · rw [gov_normalize]
    have hpk := gov_raw_peak_pos lambda_max
    rw [if_pos hpk, npMax_map_div hpk, div_self (ne_of_gt hpk)]

/-- Closed instance of C4 at `lambda_max = 500`. -/
theorem C4_nomogram_peak_one_witness :
    (200 : ℝ) ≤ 500 ∧ (500 : ℝ) ≤ 720 ∧
    (govardovskii_nomogram 500 none =
        .ok (standard_wavelengths_r,
          gov_normalize (gov_sensitivity_raw 500 standard_wavelengths_r)) ∧
      0 < npMax (gov_sensitivity_raw 500 standard_wavelengths_r) ∧
      npMax (gov_normalize (gov_sensitivity_raw 500 standard_wavelengths_r)) = 1) :=
  ⟨by norm_num, by norm_num, C4_nomogram_peak_one 500 (by norm_num) (by norm_num)⟩

/-- **C10**: every sensitivity value the nomogram returns on the canonical
grid is strictly positive — the alpha band is a reciprocal of a sum of
exponentials plus a positive constant, so no grid point is exactly 0. -/
theorem C10_sensitivity_pos (lambda_max : ℝ) (h1 : 200 ≤ lambda_max)
    (h2 : lambda_max ≤ 720) :
    (gov_normalize (gov_sensitivity_raw lambda_max standard_wavelengths_r)).Forall
      (fun s => 0 < s) := by
  rw [gov_normalize, if_pos (gov_raw_peak_pos lambda_max), List.forall_iff_forall_mem]
  intro s hs
  rcases List.mem_map.mp hs with ⟨x, hx, rfl⟩
  exact div_pos (gov_sensitivity_raw_pos lambda_max x hx) (gov_raw_peak_pos lambda_max)

/-- Closed instance of C10 at `lambda_max = 500`. -/
theorem C10_sensitivity_pos_witness :
    (200 : ℝ) ≤ 500 ∧ (500 : ℝ) ≤ 720 ∧
    (gov_normalize (gov_sensitivity_raw 500 standard_wavelengths_r)).Forall
      (fun s => 0 < s) :=
  ⟨by norm_num, by norm_num, C10_sensitivity_pos 500 (by norm_num) (by norm_num)⟩

/-! ### C7: the importer's noise-floor step -/

/-- The two guarded small-value-suppression forms agree on lists of
non-negative values. -/
theorem suppression_ite_eq (S : List ℝ) (hS : ∀ x ∈ S, 0 ≤ x) :
    (if 0 < npMax S then S.map (fun v => if v < 0.01 * npMax S then 0 else v) else S) =
    (if npMax S = 0 then S else S.map (fun v => if v < npMax S / 100 then 0 else v)) := by
  have h0 : 0 ≤ npMax S := npMax_nonneg_of_forall_nonneg hS
  rcases eq_or_lt_of_le h0 with he | hlt
  · rw [if_neg (by rw [← he]; exact lt_irrefl 0), if_pos he.symm]
  · rw [if_pos hlt, if_neg (ne_of_gt hlt)]
    refine List.map_congr_left ?_
    intro v _
    rw [show (0.01 : ℝ) * npMax S = npMax S / 100 by
      rw [show (0.01 : ℝ) = 1 / 100 by norm_num]; ring]

/-- **C7**: the noise-floor baseline step of `import_stimulus_spectrum`
computes exactly what the claim describes: noise sample = lowest 25%
(at least 10) of the sorted values, baseline = mean + 3·stdev, subtraction
with clamping at 0, then suppression of values below 1% of the new peak
(skipped when that peak is 0). -/
theorem C7_noise_floor (values : List ℝ) :
    importer_noise_floor values = noise_floor_spec values := by
  simp only [importer_noise_floor, noise_floor_spec]
  have hn : ⌊(0.25 : ℝ) * (values.length : ℝ)⌋₊ = values.length / 4 := by
    rw [show (0.25 : ℝ) * (values.length : ℝ) = (values.length : ℝ) / (4 : ℕ) by
      push_cast; ring]
    rw [Nat.floor_div_nat, Nat.floor_natCast]
  rw [hn]
  exact suppression_ite_eq _ (by
    intro x hx
    rcases List.mem_map.mp hx with ⟨v, _, rfl⟩
    exact le_max_right _ 0)

end LightCal
